import Mathlib

/-!
Verification of `scripts/sync_prices.py` (model-price-repo).

The script is a linear pipeline over an in-memory JSON object
(model name → pricing record):

  filter_upstream → merge_models → apply_aliases →
  fill_cache_1hr_pricing → apply_custom_models → write_output

This file gives a shallow embedding of the pipeline stages that the
verified claims are about.  Python dicts (which preserve insertion order
and update keys in place) are embedded as association lists
`List (String × V)` together with the operations `dictLookup`
(first-occurrence lookup, i.e. `d[k]` / `k in d`), `dictInsert`
(`d[k] = v`: replace the value at the first occurrence of `k`, or append
a fresh `(k, v)` pair at the end) and `dictContains`.

JSON values only need to be inspected structurally by two stages
(`fill_cache_1hr_pricing` reads and writes scalar fields of a record);
all other stages are parametric in the value type.  Accordingly the
concrete value type `JVal` is a scalar (null / bool / decimal number /
string) or a flat record of scalars, which covers every pricing record
the claims mention.  JSON arrays and nested objects never have to be
inspected by the verified stages, so they are not part of `JVal`;
the parametric stages are proved for an arbitrary value type `V`.

Numbers are carried as exact decimals `num m e` standing for
`m / 10 ^ e`, matching both JSON number literals and the finite
`decimal.Decimal` values used by `fill_cache_1hr_pricing`; the
non-finite Python floats have their own scalar constructors.  Equality
of values is structural equality, which agrees with Python `==` on all
the inputs appearing below (Python `nan != nan` diverges from
structural equality, but no settled claim compares records through a
NaN: the merge claims either perform no comparison or are insensitive
to its outcome, and a filled record differs from its original in its
key set already).

The `Decimal(str(cost_5m)) * Decimal(str(ratio))` computation of
`fill_cache_1hr_pricing` is embedded faithfully, including the parsing
of string-valued source fields by `decimal.Decimal` (checked against
CPython, see `parsePyDec`) and the special-value arithmetic of NaN and
infinities.  The final `float(...)` conversion is embedded in two
parts: for a non-finite product it stores the matching non-finite
float; for a finite product the filler keeps the exact decimal, and the
binary64 rounding that `float` additionally performs on it is modelled
separately by `floatOfRat` and settled under claim C2 (the rounded
double generally differs from the exact decimal).  Two residues of
`float` and `Decimal` are deliberately left out, each noted where it
arises: `float` raises OverflowError beyond about 1.8e308, and
`decimal.Decimal` maps non-ASCII decimal digits and non-ASCII
whitespace to ASCII before parsing.
-/

/-- Scalar field values; `num m e` is the exact decimal `m / 10 ^ e`,
covering JSON number literals and finite Python floats and ints;
`fnan`, `finf` and `fninf` are the non-finite Python floats
`float("nan")`, `float("inf")` and `float("-inf")`, which the
derived-field filler can store when a string-valued source field reads
as a NaN or Infinity decimal literal. -/
inductive Scalar where
  | null
  | bool (b : Bool)
  | num (m : Int) (e : Nat)
  | fnan
  | finf
  | fninf
  | str (s : String)
deriving DecidableEq

/-- A JSON value as the pipeline needs to see it: a scalar, or a flat
record mapping field names to scalars (a pricing record). -/
inductive JVal where
  | scalar (s : Scalar)
  | obj (fields : List (String × Scalar))
deriving DecidableEq

/-- An association list standing for a Python dict with value type `V`. -/
abbrev Dict (V : Type) : Type := List (String × V)

/-- Python `d[k]` / `d.get(k)`: value at the first occurrence of key `k`. -/
def dictLookup {V : Type} (d : Dict V) (k : String) : Option V :=
  match d with
  | [] => none
  | (k1, v) :: rest => if k1 = k then some v else dictLookup rest k

/-- Python `d[k] = v`: replace the value at key `k` in place if present,
otherwise append the new pair at the end (dicts keep insertion order). -/
def dictInsert {V : Type} (d : Dict V) (k : String) (v : V) : Dict V :=
  match d with
  | [] => [(k, v)]
  | (k1, v1) :: rest =>
      if k1 = k then (k, v) :: rest else (k1, v1) :: dictInsert rest k v

/-- Python `k in d`. -/
def dictContains {V : Type} (d : Dict V) (k : String) : Bool :=
  (dictLookup d k).isSome

/-- First-some choice on options; `firstSome a b` is `a` unless `a` is
`none`.  Used to state how a dict built from two parts looks up. -/
def firstSome {V : Type} (a b : Option V) : Option V :=
  match a with
  | some x => some x
  | none => b

/-- Python `key.startswith(p)` on code points. -/
def startsWithB (p key : String) : Bool :=
  p.data.isPrefixOf key.data

/-- Check whether the first list occurs as a prefix of some suffix of
the second list, i.e. as a contiguous sublist. -/
def substrAuxB (pat : List Char) : List Char → Bool
  | [] => pat.isPrefixOf []
  | c :: rest => pat.isPrefixOf (c :: rest) || substrAuxB pat rest

/-- Python `pat in key` (substring containment) on code points. -/
def substrB (pat key : String) : Bool :=
  substrAuxB pat.data key.data

/-- The per-key condition of `filter_upstream` (lines 120-126 of the
source): drop the key if some exclude pattern occurs in it, otherwise
keep it when the tuple of prefixes is empty or some member matches. -/
def keepKey (prefixes excludes : List String) (key : String) : Bool :=
  !(excludes.any fun pat => substrB pat key) &&
    (prefixes.isEmpty || prefixes.any fun p => startsWithB p key)

/-- Embedding of `filter_upstream` (source lines 114-130).  The source
loops over `data.items()` in order and stores each surviving pair into a
fresh dict; since dict keys are unique this builds exactly the sublist
of surviving pairs, i.e. a `List.filter`. -/
def filter_upstream {V : Type} (prefixes excludes : List String)
    (data : Dict V) : Dict V :=
  data.filter fun kv => keepKey prefixes excludes kv.1

/-- The `stats` dict of `merge_models` (source line 148). -/
structure Stats where
  added : Nat
  updated : Nat
  unchanged : Nat
  total_upstream : Nat
deriving DecidableEq

/-- The additive-mode loop of `merge_models` (source lines 156-170),
processing the filtered pairs in order against the accumulating dict.
The source tests `merged[key] != value` and updates on inequality; this
embedding tests equality and swaps the two branches, which is the same
dispatch. -/
def mergeAdditive {V : Type} [DecidableEq V] (upd : Bool) :
    Dict V → Stats → Dict V → Dict V × Stats
  | merged, s, [] => (merged, s)
  | merged, s, (k, v) :: rest =>
      if dictContains merged k = false then
        mergeAdditive upd (dictInsert merged k v)
          {s with added := s.added + 1} rest
      else if upd then
        if dictLookup merged k = some v then
          mergeAdditive upd merged {s with unchanged := s.unchanged + 1} rest
        else
          mergeAdditive upd (dictInsert merged k v)
            {s with updated := s.updated + 1} rest
      else
        mergeAdditive upd merged {s with unchanged := s.unchanged + 1} rest

/-- Embedding of `merge_models` (source lines 138-170). -/
def merge_models {V : Type} [DecidableEq V] (existing filtered : Dict V)
    (sync_mode : String) (update_existing : Bool) : Dict V × Stats :=
  let stats : Stats := ⟨0, 0, 0, filtered.length⟩
  if sync_mode = "full" then
    (filtered, {stats with added := filtered.length})
  else
    mergeAdditive update_existing existing stats filtered

/-- One step of `apply_aliases` (source lines 180-190): an alias is a
pair (alias key, source key) — the config object `\x7b"source": s\x7d`
carries only the source name, read on line 181.  A missing source key
only logs a warning and leaves the dict untouched; a present one has its
record deep-copied into the alias key (deep copy is the identity here,
values being immutable). -/
def applyAliasOne {V : Type} (data : Dict V) (al : String × String) : Dict V :=
  match dictLookup data al.2 with
  | none => data
  | some v => dictInsert data al.1 v

/-- Embedding of `apply_aliases` (source lines 178-191): the alias pairs
are processed in the insertion order of the alias mapping. -/
def apply_aliases {V : Type} (data : Dict V) (aliases : List (String × String)) :
    Dict V :=
  aliases.foldl applyAliasOne data

/-- Source field read by `fill_cache_1hr_pricing` (source line 225). -/
def costField : String := "cache_creation_input_token_cost"

/-- Target field written by `fill_cache_1hr_pricing` (source line 230). -/
def costField1hr : String := "cache_creation_input_token_cost_above_1hr"

/-- Python `value.get(f)` combined with the `is None` test of the
source: absent fields and fields holding JSON null both read as "no
value" (source lines 225-228). -/
def getNonNull (fields : Dict Scalar) (k : String) : Option Scalar :=
  match dictLookup fields k with
  | some .null => none
  | o => o

/-- The `cache_1hr_auto_fill` rule: `modelPre` is the config key
`model_prefix` (default "claude-", source line 216) and the ratio is the
exact decimal `ratioM / 10 ^ ratioE` (default 1.6, source line 217). -/
structure FillRule where
  modelPre : String
  ratioM : Int
  ratioE : Nat
deriving DecidableEq

/-- A value of Python's `decimal.Decimal`: a finite decimal
`m / 10 ^ e`, a quiet NaN (sign and payload dropped — every quiet NaN
multiplies and converts to float alike), a signaling NaN, or a signed
infinity. -/
inductive PyDec where
  | fin (m : Int) (e : Nat)
  | nan
  | snan
  | inf
  | ninf
deriving DecidableEq

/-- ASCII whitespace as stripped by `Decimal(string)` around a literal. -/
def isPySpace (c : Char) : Bool :=
  c = ' ' || c = '\t' || c = '\n' || c = '\r' || c.toNat = 11 || c.toNat = 12

/-- Strip leading and trailing whitespace from a character list. -/
def stripSpaces (l : List Char) : List Char :=
  (((l.dropWhile isPySpace).reverse).dropWhile isPySpace).reverse

/-- ASCII decimal digit test. -/
def isAsciiDigit (c : Char) : Bool :=
  48 ≤ c.toNat && c.toNat ≤ 57

/-- Numeric value of a digit string (most significant first). -/
def digitsToNat (l : List Char) : Nat :=
  l.foldl (fun a c => a * 10 + (c.toNat - 48)) 0

/-- Build the finite decimal `sign * intPart.fracPart * 10 ^ exp` in the
`m / 10 ^ e` normal form (a nonnegative power of ten is folded into the
mantissa). -/
def mkFin (sgn : Bool) (intPart fracPart : List Char) (exp : Int) : PyDec :=
  let digits : Int := (digitsToNat (intPart ++ fracPart) : Int)
  let t : Int := exp - (fracPart.length : Int)
  let mAbs : Int := if 0 ≤ t then digits * 10 ^ t.toNat else digits
  .fin (if sgn then -mAbs else mAbs) (if 0 ≤ t then 0 else (-t).toNat)

/-- The numeric arm of the decimal-literal grammar, after the optional
sign: `digits [. digits] | . digits`, then an optional exponent
`e [sign] digits` (the input is already lowercased). -/
def parseFinite (sgn : Bool) (l : List Char) : Option PyDec :=
  let intPart := l.takeWhile isAsciiDigit
  let l1 := l.dropWhile isAsciiDigit
  let fr : List Char × List Char :=
    match l1 with
    | '.' :: rest => (rest.takeWhile isAsciiDigit, rest.dropWhile isAsciiDigit)
    | _ => ([], l1)
  if intPart.isEmpty && fr.1.isEmpty then none
  else
    match fr.2 with
    | [] => some (mkFin sgn intPart fr.1 0)
    | 'e' :: rest =>
        let er : Bool × List Char :=
          match rest with
          | '+' :: r2 => (false, r2)
          | '-' :: r2 => (true, r2)
          | _ => (false, rest)
        if !er.2.isEmpty && er.2.all isAsciiDigit then
          some (mkFin sgn intPart fr.1
            (if er.1 then -(digitsToNat er.2 : Int) else (digitsToNat er.2 : Int)))
        else none
    | _ => none

/-- The decimal-literal grammar on a normalized (lowercased,
underscore-free, whitespace-stripped) character list: an optional sign,
then either a special value — `inf`, `infinity`, `nan` or `snan`, the
NaNs with an optional digit payload — or a finite numeral. -/
def parsePyDecCore (l : List Char) : Option PyDec :=
  let sl : Bool × List Char :=
    match l with
    | '+' :: rest => (false, rest)
    | '-' :: rest => (true, rest)
    | _ => (false, l)
  if sl.2 = ['i', 'n', 'f'] || sl.2 = ['i', 'n', 'f', 'i', 'n', 'i', 't', 'y'] then
    some (if sl.1 then .ninf else .inf)
  else if sl.2.take 4 = ['s', 'n', 'a', 'n'] && (sl.2.drop 4).all isAsciiDigit then
    some .snan
  else if sl.2.take 3 = ['n', 'a', 'n'] && (sl.2.drop 3).all isAsciiDigit then
    some .nan
  else
    parseFinite sl.1 sl.2

/-- Embedding of `decimal.Decimal(s)` on a string.  CPython strips
surrounding whitespace, deletes underscores wherever they occur (even
inside special-value names or before the sign), matches the exponent
marker and the special values case-insensitively, and then applies the
strict literal grammar; all checked against CPython on targeted edge
cases and on a generated corpus (exhaustive short strings over the
grammar alphabet plus random fuzz).
CPython additionally transliterates non-ASCII decimal digits and
non-ASCII whitespace to ASCII before parsing; such exotic literals are
not modelled and fall to the error path. -/
def parsePyDec (s : String) : Option PyDec :=
  parsePyDecCore (((stripSpaces s.data).filter (fun c => c != '_')).map Char.toLower)

/-- Embedding of `Decimal(str(cost_5m))` (source line 231) on a scalar
source-field value: an int or finite float prints as a decimal numeral
that `Decimal` reads back exactly, so a number keeps its exact value;
the non-finite floats print as "nan" / "inf" / "-inf" and read back as
the decimal specials; a string prints as itself and is parsed by
`Decimal`; a boolean prints as "True" / "False", which has no decimal
reading — `Decimal` raises InvalidOperation and the script dies, the
`none` of this embedding.  A null source never reaches the conversion
(filtered by the `is None` test, `getNonNull`). -/
def toPyDec : Scalar → Option PyDec
  | .num m e => some (.fin m e)
  | .fnan => some .nan
  | .finf => some .inf
  | .fninf => some .ninf
  | .str s => parsePyDec s
  | .bool _ => none
  | .null => none

/-- Embedding of the Decimal multiplication on line 231 with the ratio
`rm / 10 ^ re` (a finite decimal, since the config ratio is a JSON
number): exact on finite decimals, `(m / 10^e) * (rm / 10^re) =
(m * rm) / 10^(e + re)`; a quiet NaN propagates (even times zero); a
signaling NaN raises InvalidOperation, as does an infinity times a zero
ratio (both kill the script — `none`); an infinity otherwise follows
the ratio's sign.  All checked against CPython's default context. -/
def pyDecMulRatio (d : PyDec) (rm : Int) (re : Nat) : Option PyDec :=
  match d with
  | .fin m e => some (.fin (m * rm) (e + re))
  | .nan => some .nan
  | .snan => none
  | .inf => if 0 < rm then some .inf else if rm < 0 then some .ninf else none
  | .ninf => if 0 < rm then some .ninf else if rm < 0 then some .inf else none

/-- Embedding of the `float(...)` wrapper (source line 230) as far as
the stored scalar is concerned: a non-finite product converts to the
matching non-finite float; a finite product is kept as the exact
decimal — the binary64 rounding that `float` performs on it is modelled
by `floatOfRat` below and settled under claim C2, and the OverflowError
that `float` raises beyond about 1.8e308 is not modelled (the fill
theorems treat a record whose product is that astronomically large as
a success where the script would die).  A signaling NaN never reaches
this conversion (`pyDecMulRatio` fails first); the arm is dead. -/
def storedScalar : PyDec → Scalar
  | .fin m e => .num m e
  | .nan => .fnan
  | .snan => .fnan
  | .inf => .finf
  | .ninf => .fninf

/-- The body of the `fill_cache_1hr_pricing` loop for one `(key, value)`
pair (source lines 220-234): skip keys not matching the rule's model
name pattern, skip non-dict values, skip records with no (non-null)
source field, skip records whose target field is already non-null;
otherwise read the source field as a Decimal, multiply by the ratio and
store the result, counting 1.  `none` is the uncaught
`decimal.InvalidOperation` (boolean or non-numeric-string source,
signaling-NaN literal, infinity times zero ratio), on which the script
dies. -/
def fillValue (r : FillRule) (k : String) (v : JVal) : Option (JVal × Nat) :=
  if startsWithB r.modelPre k then
    match v with
    | .obj fields =>
        match getNonNull fields costField with
        | none => some (v, 0)
        | some c =>
            if (getNonNull fields costField1hr).isSome then some (v, 0)
            else
              match toPyDec c with
              | none => none
              | some d =>
                  match pyDecMulRatio d r.ratioM r.ratioE with
                  | none => none
                  | some p =>
                      some (.obj (dictInsert fields costField1hr
                        (storedScalar p)), 1)
    | .scalar _ => some (v, 0)
  else some (v, 0)

/-- The `fill_cache_1hr_pricing` loop over `data.items()` in order,
rebuilding the dict with each value transformed by `fillValue` and
summing the per-record counts. -/
def fillList (r : FillRule) : Dict JVal → Option (Dict JVal × Nat)
  | [] => some ([], 0)
  | (k, v) :: rest =>
      match fillValue r k v with
      | none => none
      | some (v1, c) =>
          match fillList r rest with
          | none => none
          | some (rest1, cs) => some ((k, v1) :: rest1, c + cs)

/-- Embedding of `fill_cache_1hr_pricing` (source lines 206-236).  The
source mutates `data` in place and returns only the count; the
embedding returns the mutated dict together with the count.  An absent
or falsy `cache_1hr_auto_fill` config is the `none` rule (source lines
212-214): no records touched, count 0. -/
def fill_cache_1hr_pricing (cfg : Option FillRule) (data : Dict JVal) :
    Option (Dict JVal × Nat) :=
  match cfg with
  | none => some (data, 0)
  | some r => fillList r data

/-- Opening brace, kept as a named constant for the serializer. -/
def lbrace : String := "\x7b"

/-- Closing brace, kept as a named constant for the serializer. -/
def rbrace : String := "\x7d"

/-- A run of `n` spaces (`json.dumps` indentation). -/
def nSpaces (n : Nat) : String := String.mk (List.replicate n ' ')

/-- Lowercase hexadecimal digit for `n < 16`. -/
def hexDigitCh (n : Nat) : Char :=
  Char.ofNat (if n < 10 then 48 + n else 87 + n)

/-- JSON string escaping as `json.dumps` performs it with the default
`ensure_ascii=True`: the two-character escapes for quote, backslash and
the common control characters, `\uXXXX` for the remaining control
characters and for all code points above ASCII.  (Code points above
0xFFFF would be written as surrogate pairs; none occur in this catalog
and they are not modelled.) -/
def escapeChar (c : Char) : String :=
  if c = '"' then "\\\""
  else if c = '\\' then "\\\\"
  else if c = '\n' then "\\n"
  else if c = '\t' then "\\t"
  else if c = '\r' then "\\r"
  else if c.toNat = 8 then "\\b"
  else if c.toNat = 12 then "\\f"
  else if c.toNat < 32 || 126 < c.toNat then
    String.mk ['\\', 'u', hexDigitCh ((c.toNat / 4096) % 16),
      hexDigitCh ((c.toNat / 256) % 16), hexDigitCh ((c.toNat / 16) % 16),
      hexDigitCh (c.toNat % 16)]
  else String.mk [c]

/-- A JSON string literal: quoted and escaped. -/
def jstr (s : String) : String :=
  "\"" ++ String.join (s.data.map escapeChar) ++ "\""

/-- Decimal rendering of the number `m / 10 ^ e`.  Python prints JSON
integers plainly and floats by their shortest round-tripping repr; for
the decimals of this catalog (mantissae without trailing zeros) that
repr is the plain decimal expansion produced here. -/
def renderNum (m : Int) (e : Nat) : String :=
  if e = 0 then toString m
  else
    let ds := (toString m.natAbs).data
    let ds := if ds.length ≤ e then List.replicate (e + 1 - ds.length) '0' ++ ds
              else ds
    (if m < 0 then "-" else "") ++ String.mk (ds.take (ds.length - e)) ++ "." ++
      String.mk (ds.drop (ds.length - e))

/-- JSON rendering of a scalar value.  `json.dumps` writes the
non-finite floats as the bare words NaN / Infinity / -Infinity (its
default `allow_nan=True`), checked against CPython. -/
def renderScalar : Scalar → String
  | .null => "null"
  | .bool true => "true"
  | .bool false => "false"
  | .num m e => renderNum m e
  | .fnan => "NaN"
  | .finf => "Infinity"
  | .fninf => "-Infinity"
  | .str s => jstr s

/-- Strict code-point ordering on strings, the order `sorted` and
`json.dumps(sort_keys=True)` use for `str` keys. -/
def ltCharsB : List Char → List Char → Bool
  | [], [] => false
  | [], _ :: _ => true
  | _ :: _, [] => false
  | a :: as, b :: bs =>
      Nat.blt a.toNat b.toNat || (Nat.beq a.toNat b.toNat && ltCharsB as bs)

/-- Insert one pair into a key-sorted association list. -/
def insertSortedKV {V : Type} (x : String × V) :
    List (String × V) → List (String × V)
  | [] => [x]
  | y :: ys =>
      if ltCharsB x.1.data y.1.data then x :: y :: ys
      else y :: insertSortedKV x ys

/-- Sort an association list by key (insertion sort; dict keys are
unique, so stability questions do not arise). -/
def sortByKey {V : Type} (l : List (String × V)) : List (String × V) :=
  l.foldr insertSortedKV []

/-- Render one record at indentation depth `ind`, as `json.dumps` with
`indent=2, sort_keys=True` does: `\x7b\x7d` when empty, otherwise one
`"key": value` line per field at depth `ind + 2`, comma-separated, with
the closing brace back at depth `ind`. -/
def renderRecord (ind : Nat) (fields : Dict Scalar) : String :=
  match sortByKey fields with
  | [] => lbrace ++ rbrace
  | fs =>
      lbrace ++ "\n" ++
        String.intercalate (",\n")
          (fs.map fun kv => nSpaces (ind + 2) ++ jstr kv.1 ++ ": " ++
            renderScalar kv.2) ++
        "\n" ++ nSpaces ind ++ rbrace

/-- Render a catalog value at indentation depth `ind`. -/
def renderJVal (ind : Nat) : JVal → String
  | .scalar s => renderScalar s
  | .obj fields => renderRecord ind fields

/-- Embedding of `json.dumps(data, sort_keys=True, indent=2)` for a
catalog (source line 254): the top-level object at depth 0. -/
def dumps (data : Dict JVal) : String :=
  match sortByKey data with
  | [] => lbrace ++ rbrace
  | ds =>
      lbrace ++ "\n" ++
        String.intercalate (",\n")
          (ds.map fun kv => nSpaces 2 ++ jstr kv.1 ++ ": " ++ renderJVal 2 kv.2) ++
        "\n" ++ rbrace

/-- UTF-8 encoding of one code point, as byte values. -/
def utf8Char (c : Char) : List Nat :=
  let n := c.toNat
  if n < 128 then [n]
  else if n < 2048 then [192 + n / 64, 128 + n % 64]
  else if n < 65536 then [224 + n / 4096, 128 + (n / 64) % 64, 128 + n % 64]
  else [240 + n / 262144, 128 + (n / 4096) % 64, 128 + (n / 64) % 64,
    128 + n % 64]

/-- Python `s.encode("utf-8")` as a list of byte values. -/
def utf8Bytes (s : String) : List Nat :=
  (s.data.map utf8Char).flatten

/-- Addition modulo 2^32. -/
def add32 (a b : Nat) : Nat := (a + b) % 4294967296

/-- Right rotation of a 32-bit word by `n` places. -/
def rotr32 (n x : Nat) : Nat := ((x >>> n) ||| (x <<< (32 - n))) % 4294967296

/-- SHA-256 message-schedule sigma-0: rotr 7 xor rotr 18 xor shr 3. -/
def smallSigma0 (x : Nat) : Nat := rotr32 7 x ^^^ rotr32 18 x ^^^ (x >>> 3)

/-- SHA-256 message-schedule sigma-1: rotr 17 xor rotr 19 xor shr 10. -/
def smallSigma1 (x : Nat) : Nat := rotr32 17 x ^^^ rotr32 19 x ^^^ (x >>> 10)

/-- SHA-256 compression Sigma-0: rotr 2 xor rotr 13 xor rotr 22. -/
def bigSigma0 (x : Nat) : Nat := rotr32 2 x ^^^ rotr32 13 x ^^^ rotr32 22 x

/-- SHA-256 compression Sigma-1: rotr 6 xor rotr 11 xor rotr 25. -/
def bigSigma1 (x : Nat) : Nat := rotr32 6 x ^^^ rotr32 11 x ^^^ rotr32 25 x

/-- SHA-256 choice function (x and y) xor (not x and z) on 32 bits. -/
def chFn (x y z : Nat) : Nat := (x &&& y) ^^^ ((4294967295 ^^^ x) &&& z)

/-- SHA-256 majority function. -/
def majFn (x y z : Nat) : Nat := (x &&& y) ^^^ (x &&& z) ^^^ (y &&& z)

/-- The 64 SHA-256 round constants of FIPS 180-4 (the fractional parts
of the cube roots of the first 64 primes), as decimal numerals. -/
def sha256K : List Nat :=
  [1116352408, 1899447441, 3049323471, 3921009573, 961987163,
   1508970993, 2453635748, 2870763221, 3624381080, 310598401,
   607225278, 1426881987, 1925078388, 2162078206, 2614888103,
   3248222580, 3835390401, 4022224774, 264347078, 604807628,
   770255983, 1249150122, 1555081692, 1996064986, 2554220882,
   2821834349, 2952996808, 3210313671, 3336571891, 3584528711,
   113926993, 338241895, 666307205, 773529912, 1294757372,
   1396182291, 1695183700, 1986661051, 2177026350, 2456956037,
   2730485921, 2820302411, 3259730800, 3345764771, 3516065817,
   3600352804, 4094571909, 275423344, 430227734, 506948616,
   659060556, 883997877, 958139571, 1322822218, 1537002063,
   1747873779, 1955562222, 2024104815, 2227730452, 2361852424,
   2428436474, 2756734187, 3204031479, 3329325298]

/-- Big-endian 8-byte encoding of a length in bits. -/
def be64 (n : Nat) : List Nat :=
  [(n >>> 56) % 256, (n >>> 48) % 256, (n >>> 40) % 256, (n >>> 32) % 256,
   (n >>> 24) % 256, (n >>> 16) % 256, (n >>> 8) % 256, n % 256]

/-- SHA-256 padding: append 0x80, zero-fill to 56 mod 64 bytes, then
the 64-bit big-endian bit length. -/
def sha256Pad (msg : List Nat) : List Nat :=
  msg ++ [128] ++ List.replicate ((119 - msg.length % 64) % 64) 0 ++
    be64 (8 * msg.length)

/-- Split a byte list into 64-byte blocks. -/
def chunks64 : List Nat → List (List Nat)
  | [] => []
  | x :: xs => (x :: xs).take 64 :: chunks64 ((x :: xs).drop 64)
  termination_by l => l.length
  decreasing_by simp [List.length_drop]; omega

/-- Combine bytes into big-endian 32-bit words. -/
def bytesToWords : List Nat → List Nat
  | b0 :: b1 :: b2 :: b3 :: rest =>
      (((b0 * 256 + b1) * 256 + b2) * 256 + b3) :: bytesToWords rest
  | _ => []

/-- Extend a 16-word message schedule by `n` further words. -/
def extendW (w : List Nat) : Nat → List Nat
  | 0 => w
  | n + 1 =>
      let w1 := extendW w n
      let t := w1.length
      w1 ++ [add32 (add32 (smallSigma1 (w1.getD (t - 2) 0)) (w1.getD (t - 7) 0))
        (add32 (smallSigma0 (w1.getD (t - 15) 0)) (w1.getD (t - 16) 0))]

/-- The eight SHA-256 working variables. -/
structure Hash8 where
  a : Nat
  b : Nat
  c : Nat
  d : Nat
  e : Nat
  f : Nat
  g : Nat
  h : Nat
deriving DecidableEq

/-- One SHA-256 compression round for a (round constant, schedule word)
pair. -/
def sha256Round (s : Hash8) (kw : Nat × Nat) : Hash8 :=
  let t1 := add32 s.h (add32 (bigSigma1 s.e)
    (add32 (chFn s.e s.f s.g) (add32 kw.1 kw.2)))
  let t2 := add32 (bigSigma0 s.a) (majFn s.a s.b s.c)
  ⟨add32 t1 t2, s.a, s.b, s.c, add32 s.d t1, s.e, s.f, s.g⟩

/-- Process one 64-byte block: 64 rounds, then add into the state. -/
def sha256Block (st : Hash8) (block : List Nat) : Hash8 :=
  let w := extendW (bytesToWords block) 48
  let s := (sha256K.zip w).foldl sha256Round st
  ⟨add32 st.a s.a, add32 st.b s.b, add32 st.c s.c, add32 st.d s.d,
   add32 st.e s.e, add32 st.f s.f, add32 st.g s.g, add32 st.h s.h⟩

/-- The SHA-256 initial state of FIPS 180-4, as decimal numerals. -/
def sha256Init : Hash8 :=
  ⟨1779033703, 3144134277, 1013904242, 2773480762,
   1359893119, 2600822924, 528734635, 1541459225⟩

/-- Lowercase hexadecimal rendering of one 32-bit word. -/
def hexWord (x : Nat) : String :=
  String.mk ((List.range 8).map fun i => hexDigitCh ((x >>> (28 - 4 * i)) % 16))

/-- Embedding of `compute_hash` (source lines 244-246):
`hashlib.sha256(bytes).hexdigest()`. -/
def compute_hash (json_bytes : List Nat) : String :=
  let fin := (chunks64 (sha256Pad json_bytes)).foldl sha256Block sha256Init
  hexWord fin.a ++ hexWord fin.b ++ hexWord fin.c ++ hexWord fin.d ++
    hexWord fin.e ++ hexWord fin.f ++ hexWord fin.g ++ hexWord fin.h

/-- The observable outcome of `write_output`: the returned pair
`(changed, new_hash)` and the files written, as (path, text contents)
pairs in write order. -/
structure WriteResult where
  changed : Bool
  new_hash : String
  files_written : List (String × String)
deriving DecidableEq

/-- Embedding of `write_output` (source lines 249-268): serialize with
sorted keys and 2-space indent plus a trailing newline, hash the UTF-8
bytes, and when the hash equals the stored one return unchanged and
write nothing; otherwise write the data file and then the hash file
(hex digest plus trailing newline). -/
def write_output (data : Dict JVal) (json_path hash_path old_hash : String) :
    WriteResult :=
  let json_text := dumps data ++ "\n"
  let new_hash := compute_hash (utf8Bytes json_text)
  if new_hash = old_hash then ⟨false, new_hash, []⟩
  else ⟨true, new_hash, [(json_path, json_text), (hash_path, new_hash ++ "\n")]⟩

/-- The rational `2 ^ g` for an integer `g`. -/
def pow2z (g : Int) : ℚ :=
  if 0 ≤ g then ((2 ^ g.toNat : Nat) : ℚ) else 1 / ((2 ^ (-g).toNat : Nat) : ℚ)

/-- Binary digit length minus one, `⌊log2 n⌋`, by structural recursion
on a fuel argument (so that it evaluates inside the kernel). -/
def log2Fuel : Nat → Nat → Nat
  | 0, _ => 0
  | fuel + 1, n => if n < 2 then 0 else log2Fuel fuel (n / 2) + 1

/-- Floor of the base-2 logarithm of the positive fraction `num / den`
(the fraction need not be in lowest terms): with
`t = ⌊log2 num⌋ - ⌊log2 den⌋` the value lies in `[2^(t-1), 2^(t+1))`,
so the floor is `t - 1` or `t`, decided by one integer comparison. -/
def fracLog2 (num den : Nat) : Int :=
  let t : Int := (log2Fuel num num : Int) - (log2Fuel den den : Int)
  if num * 2 ^ (-t).toNat < den * 2 ^ t.toNat then t - 1 else t

/-- The integer nearest `num / (den * 2 ^ g)`, ties to even, for a
positive fraction `num / den`. -/
def roundAtQuantum (num den : Nat) (g : Int) : Nat :=
  let bigN : Nat := num * 2 ^ (-g).toNat
  let bigD : Nat := den * 2 ^ g.toNat
  let n0 : Nat := bigN / bigD
  let rem : Nat := bigN % bigD
  if 2 * rem < bigD then n0
  else if bigD < 2 * rem then n0 + 1
  else if n0 % 2 = 0 then n0 else n0 + 1

/-- Embedding of CPython `float(d)` on the exact finite value
`m / den`: IEEE-754 binary64 rounding to nearest, ties to even — 53
significant bits for normal magnitudes, quantum `2 ^ (-1074)` below the
normal range — and `none` where the rounded magnitude reaches
`2 ^ 1024` and Python raises OverflowError.  The result `some (n, g)`
is the double of value `n * 2 ^ g`.  Checked against CPython
(`float.hex` / `Fraction`) on sample values including the 0.48 of
claim C2, 0.1, 0.5, a subnormal and an overflowing magnitude. -/
def floatOfFrac (m : Int) (den : Nat) : Option (Int × Int) :=
  if m = 0 then some (0, 0)
  else
    let g : Int := max (fracLog2 m.natAbs den - 52) (-1074)
    let n : Nat := roundAtQuantum m.natAbs den g
    if 2 ^ (1024 + 1074) ≤ n * 2 ^ (g + 1074).toNat then none
    else some (if m < 0 then -(n : Int) else (n : Int), g)

/-- The rational value of a binary64 result pair. -/
def b64Val (p : Int × Int) : ℚ :=
  (p.1 : ℚ) * pow2z p.2

/-- The value the script stores on line 230 for a record whose source
field reads as the finite decimal `m1 / 10 ^ e1` under the ratio
`m2 / 10 ^ e2`: the binary64 float of the exact decimal product
`(m1 * m2) / 10 ^ (e1 + e2)`. -/
def cache1hrStored (m1 : Int) (e1 : Nat) (m2 : Int) (e2 : Nat) :
    Option (Int × Int) :=
  floatOfFrac (m1 * m2) (10 ^ (e1 + e2))

/-! ## Library lemmas about the dict and string primitives -/

/-- Boolean prefix test on char lists agrees with `List.IsPrefix`. -/
theorem isPrefixOf_iff_pref {l1 l2 : List Char} :
    l1.isPrefixOf l2 = true ↔ l1 <+: l2 := by
  induction l1 generalizing l2 with
  | nil => simp [List.isPrefixOf]
  | cons a t ih =>
    cases l2 with
    | nil => simp [List.isPrefixOf]
    | cons b t2 =>
      show (a == b && t.isPrefixOf t2) = true ↔ _
      rw [Bool.and_eq_true, beq_iff_eq, ih, List.cons_prefix_cons]

/-- The suffix-scanning substring test agrees with `List.IsInfix`. -/
theorem substrAuxB_iff {pat l : List Char} :
    substrAuxB pat l = true ↔ pat <:+: l := by
  induction l with
  | nil => simp [substrAuxB, isPrefixOf_iff_pref]
  | cons c rest ih =>
    simp only [substrAuxB, Bool.or_eq_true, isPrefixOf_iff_pref, ih,
      List.infix_cons_iff]

/-- `startsWithB` agrees with code-point prefixing. -/
theorem startsWithB_iff {p k : String} :
    startsWithB p k = true ↔ p.data <+: k.data :=
  isPrefixOf_iff_pref

/-- `substrB` agrees with code-point substring containment. -/
theorem substrB_iff {pat k : String} :
    substrB pat k = true ↔ pat.data <:+: k.data :=
  substrAuxB_iff

/-- Looking a key up after a dict store: the stored key reads the new
value, all other keys read as before. -/
theorem dictLookup_insert {V : Type} (d : Dict V) (k k' : String) (v : V) :
    dictLookup (dictInsert d k v) k' =
      if k = k' then some v else dictLookup d k' := by
  induction d with
  | nil => simp [dictInsert, dictLookup]
  | cons kv rest ih =>
    obtain ⟨k1, v1⟩ := kv
    by_cases h1 : k1 = k
    · subst h1
      simp only [dictInsert, if_pos rfl, dictLookup]
      by_cases h2 : k1 = k' <;> simp [h2]
    · simp only [dictInsert, if_neg h1, dictLookup, ih]
      by_cases h2 : k1 = k'
      · have h3 : ¬ k = k' := fun e => h1 (h2.trans e.symm)
        simp [h2, h3]
      · simp [h2]

/-- Storing an absent key appends the pair at the end of the dict. -/
theorem dictInsert_of_absent {V : Type} {d : Dict V} {k : String} (v : V)
    (h : dictLookup d k = none) : dictInsert d k v = d ++ [(k, v)] := by
  induction d with
  | nil => simp [dictInsert]
  | cons kv rest ih =>
    obtain ⟨k1, v1⟩ := kv
    simp only [dictLookup] at h
    by_cases h1 : k1 = k
    · simp [h1] at h
    · simp only [dictInsert, if_neg h1, List.cons_append, List.cons.injEq,
        true_and]
      exact ih (by simpa [h1] using h)

/-- `firstSome` with an empty second choice. -/
theorem firstSome_none {V : Type} (a : Option V) : firstSome a none = a := by
  cases a <;> rfl

/-- Lookup distributes over dict concatenation, preferring the left
part. -/
theorem dictLookup_append {V : Type} (d1 d2 : Dict V) (k : String) :
    dictLookup (d1 ++ d2) k =
      firstSome (dictLookup d1 k) (dictLookup d2 k) := by
  induction d1 with
  | nil => simp [dictLookup, firstSome]
  | cons kv rest ih =>
    obtain ⟨k1, v1⟩ := kv
    by_cases h1 : k1 = k <;> simp [dictLookup, h1, ih, firstSome]

/-- Lookup in a dict filtered by a condition on keys alone. -/
theorem dictLookup_filterKey {V : Type} (f : String → Bool) (data : Dict V)
    (k : String) :
    dictLookup (data.filter fun kv => f kv.1) k =
      if f k then dictLookup data k else none := by
  induction data with
  | nil => simp [dictLookup]
  | cons kv rest ih =>
    obtain ⟨k1, v1⟩ := kv
    by_cases hf : f k1
    · rw [List.filter_cons_of_pos (by simpa using hf)]
      by_cases h1 : k1 = k
      · subst h1
        simp [dictLookup, hf]
      · simp only [dictLookup, if_neg h1, ih]
    · rw [List.filter_cons_of_neg (by simpa using hf)]
      by_cases h1 : k1 = k
      · subst h1
        rw [ih]
        have h2 : f k1 = false := by simpa using hf
        simp [h2]
      · simp only [dictLookup, if_neg h1, ih]

/-- A dict does not contain a key exactly when lookup finds nothing. -/
theorem dictContains_false_iff {V : Type} (d : Dict V) (k : String) :
    dictContains d k = false ↔ dictLookup d k = none := by
  unfold dictContains
  cases dictLookup d k <;> simp

/-- Lookup inside a one-pair dict. -/
theorem dictLookup_single {V : Type} (k k' : String) (v : V) :
    dictLookup [(k, v)] k' = if k = k' then some v else none := by
  simp [dictLookup]

/-- Appending a fresh pair does not disturb other keys' containment. -/
theorem dictContains_append_single {V : Type} (d : Dict V) (k k' : String)
    (v : V) (h : k' ≠ k) :
    dictContains (d ++ [(k, v)]) k' = dictContains d k' := by
  unfold dictContains
  rw [dictLookup_append, dictLookup_single, if_neg (fun e => h e.symm),
    firstSome_none]

/-- The additive merge loop with `update_existing = false`, fully
characterized: the pairs of `filtered` whose keys are new are appended
in order, everything else is untouched, and the stats count exactly the
new and the already-present filtered pairs. -/
theorem mergeAdditive_no_update {V : Type} [DecidableEq V] (filtered : Dict V) :
    ∀ (merged : Dict V) (s : Stats),
    (filtered.map Prod.fst).Nodup →
    mergeAdditive false merged s filtered =
      (merged ++ filtered.filter (fun kv => !dictContains merged kv.1),
       ⟨s.added + (filtered.filter (fun kv => !dictContains merged kv.1)).length,
        s.updated,
        s.unchanged + (filtered.filter (fun kv => dictContains merged kv.1)).length,
        s.total_upstream⟩) := by
  induction filtered with
  | nil =>
    intro merged s _
    cases s
    simp [mergeAdditive]
  | cons kv rest ih =>
    intro merged s hnd
    obtain ⟨k, v⟩ := kv
    rw [List.map_cons, List.nodup_cons] at hnd
    obtain ⟨hk, hrest⟩ := hnd
    by_cases h1 : dictContains merged k = false
    · rw [show mergeAdditive false merged s ((k, v) :: rest) =
          mergeAdditive false (dictInsert merged k v)
            {s with added := s.added + 1} rest by
        simp [mergeAdditive, h1]]
      rw [ih _ _ hrest]
      rw [dictInsert_of_absent v ((dictContains_false_iff merged k).mp h1)]
      have hcongr : ∀ kv' ∈ rest,
          dictContains (merged ++ [(k, v)]) kv'.1 = dictContains merged kv'.1 := by
        intro kv' hmem
        refine dictContains_append_single merged k kv'.1 v (fun e => hk ?_)
        rw [← e]
        exact List.mem_map.mpr ⟨kv', hmem, rfl⟩
      have hflt : rest.filter (fun kv' => !dictContains (merged ++ [(k, v)]) kv'.1)
          = rest.filter (fun kv' => !dictContains merged kv'.1) :=
        List.filter_congr (fun x hx => by rw [hcongr x hx])
      have hflt2 : rest.filter (fun kv' => dictContains (merged ++ [(k, v)]) kv'.1)
          = rest.filter (fun kv' => dictContains merged kv'.1) :=
        List.filter_congr (fun x hx => by rw [hcongr x hx])
      rw [hflt, hflt2]
      rw [List.filter_cons_of_pos (by simp [h1]),
        List.filter_cons_of_neg (by simp [h1])]
      simp [List.append_assoc, Nat.add_assoc, Nat.add_comm 1]
    · have h2 : dictContains merged k = true := by
        revert h1; cases dictContains merged k <;> simp
      rw [show mergeAdditive false merged s ((k, v) :: rest) =
          mergeAdditive false merged {s with unchanged := s.unchanged + 1} rest by
        simp [mergeAdditive, h2]]
      rw [ih _ _ hrest]
      rw [List.filter_cons_of_neg (by simp [h2]),
        List.filter_cons_of_pos (by simp [h2])]
      simp [Nat.add_assoc, Nat.add_comm 1]

/-- In additive mode every filtered pair bumps exactly one of the three
counters, whatever `update_existing` is, and the upstream total rides
along unchanged. -/
theorem mergeAdditive_stats_sum {V : Type} [DecidableEq V] (upd : Bool)
    (filtered : Dict V) : ∀ (merged : Dict V) (s : Stats),
    ((mergeAdditive upd merged s filtered).2).added +
        ((mergeAdditive upd merged s filtered).2).updated +
        ((mergeAdditive upd merged s filtered).2).unchanged
      = s.added + s.updated + s.unchanged + filtered.length
    ∧ ((mergeAdditive upd merged s filtered).2).total_upstream
      = s.total_upstream := by
  induction filtered with
  | nil =>
    intro merged s
    simp [mergeAdditive]
  | cons kv rest ih =>
    intro merged s
    obtain ⟨k, v⟩ := kv
    by_cases h1 : dictContains merged k = false
    · rw [show mergeAdditive upd merged s ((k, v) :: rest) =
          mergeAdditive upd (dictInsert merged k v)
            {s with added := s.added + 1} rest by
        simp [mergeAdditive, h1]]
      have h := ih (dictInsert merged k v) {s with added := s.added + 1}
      refine ⟨by rw [h.1]; simp; omega, by rw [h.2]⟩
    · by_cases h2 : upd
      · by_cases h3 : dictLookup merged k = some v
        · rw [show mergeAdditive upd merged s ((k, v) :: rest) =
              mergeAdditive upd merged
                {s with unchanged := s.unchanged + 1} rest by
            simp [mergeAdditive, h1, h2, h3]]
          have h := ih merged {s with unchanged := s.unchanged + 1}
          refine ⟨by rw [h.1]; simp; omega, by rw [h.2]⟩
        · rw [show mergeAdditive upd merged s ((k, v) :: rest) =
              mergeAdditive upd (dictInsert merged k v)
                {s with updated := s.updated + 1} rest by
            simp [mergeAdditive, h1, h2, h3]]
          have h := ih (dictInsert merged k v) {s with updated := s.updated + 1}
          refine ⟨by rw [h.1]; simp; omega, by rw [h.2]⟩
      · rw [show mergeAdditive upd merged s ((k, v) :: rest) =
            mergeAdditive upd merged
              {s with unchanged := s.unchanged + 1} rest by
          simp [mergeAdditive, h1, h2]]
        have h := ih merged {s with unchanged := s.unchanged + 1}
        refine ⟨by rw [h.1]; simp; omega, by rw [h.2]⟩

/-- The two field names of the auto-fill rule are distinct. -/
theorem costField1hr_ne_costField : costField1hr ≠ costField := by decide

/-- Reading another field through a store to the target field. -/
theorem getNonNull_insert_ne (fields : Dict Scalar) (x : Scalar)
    (k k' : String) (h : k ≠ k') :
    getNonNull (dictInsert fields k x) k' = getNonNull fields k' := by
  unfold getNonNull
  rw [dictLookup_insert, if_neg h]

/-- Reading the target field back after storing a number into it. -/
theorem getNonNull_insert_num (fields : Dict Scalar) (k : String)
    (m : Int) (e : Nat) :
    getNonNull (dictInsert fields k (.num m e)) k = some (.num m e) := by
  unfold getNonNull
  rw [dictLookup_insert, if_pos rfl]

/-- A record whose key does not match the rule's model name pattern
passes through the fill step untouched. -/
theorem fillValue_no_match (r : FillRule) (k : String) (v : JVal)
    (h : startsWithB r.modelPre k = false) :
    fillValue r k v = some (v, 0) := by
  unfold fillValue
  rw [if_neg (by simp [h])]

/-- The scalar stored by the fill step is never null (it is a number or
a non-finite float). -/
theorem storedScalar_ne_null (p : PyDec) : storedScalar p ≠ Scalar.null := by
  cases p <;> simp [storedScalar]

/-- Reading the target field back after storing a non-null scalar into
it. -/
theorem getNonNull_insert_nonnull (fields : Dict Scalar) (k : String)
    (sc : Scalar) (hnn : sc ≠ Scalar.null) :
    getNonNull (dictInsert fields k sc) k = some sc := by
  unfold getNonNull
  rw [dictLookup_insert, if_pos rfl]
  cases sc with
  | null => exact absurd rfl hnn
  | bool b => rfl
  | num m e => rfl
  | fnan => rfl
  | finf => rfl
  | fninf => rfl
  | str s => rfl

/-- Complete case analysis of a successful fill step: either the value
is returned untouched with count 0, or the key matches, the record has
a readable (non-null) source field and no (non-null) target field, and
the record comes back with exactly a non-null scalar stored into the
target field, with count 1. -/
theorem fillValue_cases (r : FillRule) (k : String) (v v1 : JVal) (c : Nat)
    (h : fillValue r k v = some (v1, c)) :
    (v1 = v ∧ c = 0) ∨
    (startsWithB r.modelPre k = true ∧ ∃ fields sc0 sc2,
      v = .obj fields ∧
      getNonNull fields costField = some sc0 ∧
      getNonNull fields costField1hr = none ∧
      sc2 ≠ Scalar.null ∧
      v1 = .obj (dictInsert fields costField1hr sc2) ∧ c = 1) := by
  unfold fillValue at h
  by_cases hp : startsWithB r.modelPre k = true
  · rw [if_pos hp] at h
    cases v with
    | scalar s =>
      simp only [Option.some.injEq, Prod.mk.injEq] at h
      exact Or.inl ⟨h.1.symm, h.2.symm⟩
    | obj fields =>
      dsimp only at h
      cases hc : getNonNull fields costField with
      | none =>
        rw [hc] at h
        simp only [Option.some.injEq, Prod.mk.injEq] at h
        exact Or.inl ⟨h.1.symm, h.2.symm⟩
      | some c0 =>
        rw [hc] at h
        dsimp only at h
        by_cases ht : (getNonNull fields costField1hr).isSome = true
        · rw [if_pos ht] at h
          simp only [Option.some.injEq, Prod.mk.injEq] at h
          exact Or.inl ⟨h.1.symm, h.2.symm⟩
        · rw [if_neg ht] at h
          cases hd : toPyDec c0 with
          | none => rw [hd] at h; cases h
          | some d =>
            rw [hd] at h
            dsimp only at h
            cases hp2 : pyDecMulRatio d r.ratioM r.ratioE with
            | none => rw [hp2] at h; cases h
            | some p =>
              rw [hp2] at h
              dsimp only at h
              simp only [Option.some.injEq, Prod.mk.injEq] at h
              refine Or.inr ⟨hp, fields, c0, storedScalar p, rfl, hc, ?_,
                storedScalar_ne_null p, h.1.symm, h.2.symm⟩
              cases htv : getNonNull fields costField1hr with
              | none => rfl
              | some x => rw [htv] at ht; simp at ht
  · rw [if_neg hp] at h
    simp only [Option.some.injEq, Prod.mk.injEq] at h
    exact Or.inl ⟨h.1.symm, h.2.symm⟩

/-- Applying the fill step to its own output changes nothing and counts
nothing. -/
theorem fillValue_idem (r : FillRule) (k : String) (v v1 : JVal) (c : Nat)
    (h : fillValue r k v = some (v1, c)) :
    fillValue r k v1 = some (v1, 0) := by
  rcases fillValue_cases r k v v1 c h with
    ⟨rfl, rfl⟩ | ⟨hp, fields, sc0, sc2, rfl, hc, ht, hnn, rfl, rfl⟩
  · exact h
  · unfold fillValue
    rw [if_pos hp]
    dsimp only
    rw [getNonNull_insert_ne _ _ _ _ costField1hr_ne_costField, hc]
    dsimp only
    rw [getNonNull_insert_nonnull _ _ _ hnn]
    simp

/-- A filled record differs from the unfilled one: its target field now
reads a non-null scalar where the original read nothing. -/
theorem fillValue_changed (fields : Dict Scalar) (sc2 : Scalar)
    (hnn : sc2 ≠ Scalar.null)
    (ht : getNonNull fields costField1hr = none) :
    JVal.obj (dictInsert fields costField1hr sc2) ≠ JVal.obj fields := by
  intro he
  have h2 : dictInsert fields costField1hr sc2 = fields := JVal.obj.inj he
  have h3 := getNonNull_insert_nonnull fields costField1hr sc2 hnn
  rw [h2, ht] at h3
  cases h3

/-- Sample behaviors of the decimal-literal reader, each matching
CPython's `decimal.Decimal` (the whole parser was additionally compared
with CPython on an exhaustive short-string corpus plus random fuzz):
plain and underscore/whitespace-laden finite literals, exponents,
specials with payloads, and the boolean strings that have no decimal
reading. -/
theorem parsePyDec_examples :
    parsePyDec "0.5" = some (.fin 5 1) ∧
    parsePyDec " 1_0.2_5 " = some (.fin 1025 2) ∧
    parsePyDec "5e+2" = some (.fin 500 0) ∧
    parsePyDec "-Infinity" = some .ninf ∧
    parsePyDec "nan123" = some .nan ∧
    parsePyDec "snan" = some .snan ∧
    parsePyDec "True" = none ∧
    parsePyDec "" = none := by
  decide

/-- Destructor for a successful run of the fill loop on a non-empty
dict: the head is transformed by one fill step, the tail by the loop,
and the counts add. -/
theorem fillList_cons_elim (r : FillRule) (k : String) (v : JVal)
    (rest out : Dict JVal) (c : Nat)
    (h : fillList r ((k, v) :: rest) = some (out, c)) :
    ∃ v1 c1 rest1 c2, fillValue r k v = some (v1, c1) ∧
      fillList r rest = some (rest1, c2) ∧
      out = (k, v1) :: rest1 ∧ c = c1 + c2 := by
  unfold fillList at h
  cases hv : fillValue r k v with
  | none => rw [hv] at h; cases h
  | some p =>
    obtain ⟨v1, c1⟩ := p
    rw [hv] at h
    dsimp only at h
    cases hr : fillList r rest with
    | none => rw [hr] at h; cases h
    | some q =>
      obtain ⟨rest1, c2⟩ := q
      rw [hr] at h
      dsimp only at h
      simp only [Option.some.injEq, Prod.mk.injEq] at h
      exact ⟨v1, c1, rest1, c2, rfl, rfl, h.1.symm, h.2.symm⟩

/-- A successful fill run is idempotent (the second run succeeds, counts
zero and returns its input), and every record that already carried a
non-null target field survives into the output untouched. -/
theorem fillList_idem_mem (r : FillRule) :
    ∀ (data out : Dict JVal) (c : Nat),
    fillList r data = some (out, c) →
    fillList r out = some (out, 0) ∧
    (∀ k fields, (k, JVal.obj fields) ∈ data →
      (getNonNull fields costField1hr).isSome = true →
      (k, JVal.obj fields) ∈ out) := by
  intro data
  induction data with
  | nil =>
    intro out c h
    unfold fillList at h
    simp only [Option.some.injEq, Prod.mk.injEq] at h
    rw [← h.1]
    exact ⟨rfl, by simp⟩
  | cons kv rest ih =>
    intro out c h
    obtain ⟨k, v⟩ := kv
    obtain ⟨v1, c1, rest1, c2, hv, hr, rfl, rfl⟩ :=
      fillList_cons_elim r k v rest out c h
    obtain ⟨ih1, ih2⟩ := ih rest1 c2 hr
    constructor
    · unfold fillList
      rw [fillValue_idem r k v v1 c1 hv, ih1]
    · intro k2 fields hmem ht
      rcases List.mem_cons.mp hmem with he | htail
      · injection he with h1 h2
        subst h1
        subst h2
        rcases fillValue_cases r k2 (JVal.obj fields) v1 c1 hv with
          ⟨rfl, rfl⟩ | ⟨hp, fields2, sc0, sc2, hobj, hc2, ht2, hnn, rfl, rfl⟩
        · exact List.mem_cons_self ..
        · obtain rfl := JVal.obj.inj hobj
          rw [ht2] at ht
          simp at ht
      · exact List.mem_cons_of_mem _ (ih2 k2 fields htail ht)

/-- Frame property of a successful fill run: keys and their order are
preserved; a record whose key does not match the model name pattern is
untouched; any touched record only gains a non-null scalar in the
target field (which was previously absent or null), all other fields
reading exactly as before; and the returned count is the number of
changed records. -/
theorem fillList_frame (r : FillRule) :
    ∀ (data out : Dict JVal) (c : Nat),
    fillList r data = some (out, c) →
    out.map Prod.fst = data.map Prod.fst ∧
    (∀ p ∈ data.zip out,
      (startsWithB r.modelPre p.1.1 = false → p.2.2 = p.1.2) ∧
      (p.2.2 = p.1.2 ∨ (startsWithB r.modelPre p.1.1 = true ∧
        ∃ fields sc2, p.1.2 = JVal.obj fields ∧
          sc2 ≠ Scalar.null ∧
          p.2.2 = JVal.obj (dictInsert fields costField1hr sc2) ∧
          getNonNull fields costField1hr = none ∧
          ∀ f2, f2 ≠ costField1hr →
            dictLookup (dictInsert fields costField1hr sc2) f2 =
              dictLookup fields f2))) ∧
    c = (data.zip out).countP (fun p => !(p.1.2 == p.2.2)) := by
  intro data
  induction data with
  | nil =>
    intro out c h
    unfold fillList at h
    simp only [Option.some.injEq, Prod.mk.injEq] at h
    rw [← h.1, ← h.2]
    simp
  | cons kv rest ih =>
    intro out c h
    obtain ⟨k, v⟩ := kv
    obtain ⟨v1, c1, rest1, c2, hv, hr, rfl, rfl⟩ :=
      fillList_cons_elim r k v rest out c h
    obtain ⟨ih1, ih2, ih3⟩ := ih rest1 c2 hr
    refine ⟨by simp [ih1], ?_, ?_⟩
    · intro p hp
      rw [List.zip_cons_cons] at hp
      rcases List.mem_cons.mp hp with he | htail
      · subst he
        constructor
        · intro hno
          rw [fillValue_no_match r k v hno] at hv
          simp only [Option.some.injEq, Prod.mk.injEq] at hv
          exact hv.1.symm
        · rcases fillValue_cases r k v v1 c1 hv with
            ⟨rfl, rfl⟩ | ⟨hpm, fields, sc0, sc2, hobj, hc2, ht2, hnn, rfl, rfl⟩
          · exact Or.inl rfl
          · refine Or.inr ⟨hpm, fields, sc2, hobj, hnn, rfl, ht2, ?_⟩
            intro f2 hne
            rw [dictLookup_insert, if_neg (fun e2 => hne e2.symm)]
      · exact ih2 p htail
    · rw [List.zip_cons_cons, List.countP_cons]
      rcases fillValue_cases r k v v1 c1 hv with
        ⟨rfl, rfl⟩ | ⟨hpm, fields, sc0, sc2, hobj, hc2, ht2, hnn, rfl, rfl⟩
      · simp only [ih3]
        simp
      · subst hobj
        have hne := fillValue_changed fields sc2 hnn ht2
        have hbeq : (JVal.obj fields ==
            JVal.obj (dictInsert fields costField1hr sc2)) = false :=
          beq_eq_false_iff_ne.mpr (fun e2 => hne e2.symm)
        simp only [hbeq]
        rw [← ih3]
        simp [Nat.add_comm]

/-- Containment means lookup finds a value. -/
theorem dictContains_true_iff {V : Type} (d : Dict V) (k : String) :
    dictContains d k = true ↔ ∃ v, dictLookup d k = some v := by
  unfold dictContains
  cases dictLookup d k <;> simp

/-! ## The claims -/

/-- C1 (counterexample): with upstream keys gpt-4, gpt-3, claude-x and
`prefix_filters=["gpt-"]`, the claim says the filter stage drops gpt-3;
in fact "gpt-3" starts with "gpt-", so `filter_upstream` keeps it, the
filter result is not the claimed one-entry dict, and the merge stage
counts 1 added (gpt-3), not 0. -/
theorem claim_C1_counterexample :
    "gpt-3" ∈ (filter_upstream ["gpt-"] []
      [("gpt-4", JVal.obj [("cost", Scalar.num 2 0)]),
       ("gpt-3", JVal.obj [("cost", Scalar.num 5 1)]),
       ("claude-x", JVal.obj [("cost", Scalar.num 9 0)])]).map Prod.fst ∧
    filter_upstream ["gpt-"] []
      [("gpt-4", JVal.obj [("cost", Scalar.num 2 0)]),
       ("gpt-3", JVal.obj [("cost", Scalar.num 5 1)]),
       ("claude-x", JVal.obj [("cost", Scalar.num 9 0)])]
      ≠ [("gpt-4", JVal.obj [("cost", Scalar.num 2 0)])] ∧
    (merge_models [("gpt-4", JVal.obj [("cost", Scalar.num 1 0)])]
      (filter_upstream ["gpt-"] []
        [("gpt-4", JVal.obj [("cost", Scalar.num 2 0)]),
         ("gpt-3", JVal.obj [("cost", Scalar.num 5 1)]),
         ("claude-x", JVal.obj [("cost", Scalar.num 9 0)])])
      "additive" true).2.added ≠ 0 := by
  decide

/-- C1 (amended): on the spec's end-to-end example the filter stage
keeps both gpt-4 and gpt-3 (both start with "gpt-") and drops only
claude-x; the merge stage in additive mode with `update_existing=true`
then updates gpt-4 (value differs) and adds gpt-3, giving stats
added=1, updated=1, unchanged=0, total_upstream=2. -/
theorem claim_C1 :
    filter_upstream ["gpt-"] []
      [("gpt-4", JVal.obj [("cost", Scalar.num 2 0)]),
       ("gpt-3", JVal.obj [("cost", Scalar.num 5 1)]),
       ("claude-x", JVal.obj [("cost", Scalar.num 9 0)])]
      = [("gpt-4", JVal.obj [("cost", Scalar.num 2 0)]),
         ("gpt-3", JVal.obj [("cost", Scalar.num 5 1)])] ∧
    merge_models [("gpt-4", JVal.obj [("cost", Scalar.num 1 0)])]
      [("gpt-4", JVal.obj [("cost", Scalar.num 2 0)]),
       ("gpt-3", JVal.obj [("cost", Scalar.num 5 1)])]
      "additive" true
      = ([("gpt-4", JVal.obj [("cost", Scalar.num 2 0)]),
          ("gpt-3", JVal.obj [("cost", Scalar.num 5 1)])],
         ⟨1, 1, 0, 2⟩) := by
  decide

set_option maxRecDepth 100000 in
/-- C2 (counterexample): on the claim's example — source field 0.30,
read back through `Decimal(str(...))` as the exact decimal 3/10, and
rule ratio 1.6 — the decimal product is exactly 0.48, but line 230
stores `float(...)` of it: the binary64 double
`8646911284551352 * 2 ^ (-54)`, which is not the exact decimal 0.48. -/
theorem claim_C2_counterexample :
    cache1hrStored 3 1 16 1 = some (8646911284551352, -54) ∧
    b64Val (8646911284551352, -54) ≠ (48 : ℚ) / 100 := by
  constructor
  · decide
  · simp only [b64Val, pow2z]
    norm_num [Int.toNat]

set_option maxRecDepth 100000 in
/-- C2 (amended): the multiplication itself is decimal-exact — on the
example record (source field 0.30, ratio 1.6) the filler computes the
exact decimal 0.48 and returns count 1 — but the script stores the
`float(...)` of that product: the binary64 double nearest 0.48, namely
`8646911284551352 * 2 ^ (-54) = 1080863910568919 / 2 ^ 51`, not the
exact decimal 0.48 itself. -/
theorem claim_C2 :
    fill_cache_1hr_pricing (some ⟨"claude-", 16, 1⟩)
        [("claude-m", JVal.obj
          [("cache_creation_input_token_cost", Scalar.num 3 1)])]
      = some ([("claude-m", JVal.obj
          [("cache_creation_input_token_cost", Scalar.num 3 1),
           ("cache_creation_input_token_cost_above_1hr", Scalar.num 48 2)])],
        1) ∧
    cache1hrStored 3 1 16 1 = some (8646911284551352, -54) ∧
    b64Val (8646911284551352, -54) = (1080863910568919 : ℚ) / 2 ^ 51 := by
  refine ⟨by decide, by decide, ?_⟩
  simp only [b64Val, pow2z]
  norm_num [Int.toNat]

/-- C3: merging in additive mode with `update_existing=false` returns
exactly `existing` with the filtered pairs at new keys appended (so
every existing key keeps its value and every new filtered key gets its
filtered value), the lookup of any key is the existing value first and
the filtered value only for new keys, and the stats count the new keys
as added, the already-present ones as unchanged, with updated = 0. -/
theorem claim_C3 {V : Type} [DecidableEq V] (existing filtered : Dict V)
    (hnd : (filtered.map Prod.fst).Nodup) :
    (merge_models existing filtered "additive" false).1
      = existing ++ filtered.filter (fun kv => !dictContains existing kv.1) ∧
    (∀ k, dictLookup (merge_models existing filtered "additive" false).1 k
      = firstSome (dictLookup existing k) (dictLookup filtered k)) ∧
    (merge_models existing filtered "additive" false).2
      = ⟨(filtered.filter (fun kv => !dictContains existing kv.1)).length, 0,
         (filtered.filter (fun kv => dictContains existing kv.1)).length,
         filtered.length⟩ := by
  have hm : merge_models existing filtered "additive" false
      = mergeAdditive false existing ⟨0, 0, 0, filtered.length⟩ filtered := rfl
  rw [hm, mergeAdditive_no_update filtered existing ⟨0, 0, 0, filtered.length⟩ hnd]
  refine ⟨rfl, ?_, by simp⟩
  intro k
  rw [dictLookup_append, dictLookup_filterKey (fun k2 => !dictContains existing k2)]
  cases hc : dictContains existing k with
  | true =>
    obtain ⟨x, hx⟩ := (dictContains_true_iff existing k).mp hc
    rw [hx]
    simp [firstSome]
  | false =>
    rw [(dictContains_false_iff existing k).mp hc]
    simp [firstSome]

/-- C3 (witness): a concrete instance with one shared key and one new
key, applying `claim_C3` at it. -/
theorem claim_C3_witness :
    (([("b", 7), ("c", 9)] : Dict Nat).map Prod.fst).Nodup ∧
    (merge_models [("a", 1), ("b", 2)] [("b", 7), ("c", 9)] "additive" false).1
      = [("a", 1), ("b", 2)] ++
        ([("b", 7), ("c", 9)] : Dict Nat).filter
          (fun kv => !dictContains [("a", 1), ("b", 2)] kv.1) :=
  ⟨by decide,
   (claim_C3 [("a", 1), ("b", 2)] [("b", 7), ("c", 9)] (by decide)).1⟩

/-- C4: full-mode merge returns the filtered dict verbatim, whatever
the existing dict and the update flag are, with stats: everything
counted as added, nothing updated or unchanged. -/
theorem claim_C4 {V : Type} [DecidableEq V] (existing filtered : Dict V)
    (upd : Bool) :
    merge_models existing filtered "full" upd
      = (filtered, ⟨filtered.length, 0, 0, filtered.length⟩) := rfl

/-- C5: a key of the upstream dict survives `filter_upstream` (keeping
its upstream value) exactly when the keep-condition holds of the key,
and the keep-condition holds exactly when no exclude pattern is a
substring of the key and the head patterns are empty or one of them is
a prefix of the key. -/
theorem claim_C5 {V : Type} (data : Dict V) (prefixes excludes : List String)
    (k : String) :
    dictLookup (filter_upstream prefixes excludes data) k
      = (if keepKey prefixes excludes k then dictLookup data k else none) ∧
    (keepKey prefixes excludes k = true ↔
      ((∀ pat ∈ excludes, ¬ pat.data <:+: k.data) ∧
       (prefixes = [] ∨ ∃ p ∈ prefixes, p.data <+: k.data))) := by
  constructor
  · exact dictLookup_filterKey (keepKey prefixes excludes) data k
  · unfold keepKey
    constructor
    · intro h
      rw [Bool.and_eq_true] at h
      obtain ⟨h1, h2⟩ := h
      rw [Bool.not_eq_true', List.any_eq_false] at h1
      refine ⟨?_, ?_⟩
      · intro pat hmem hinf
        exact h1 pat hmem (substrB_iff.mpr hinf)
      · rw [Bool.or_eq_true] at h2
        rcases h2 with h2 | h2
        · exact Or.inl (List.isEmpty_iff.mp h2)
        · rw [List.any_eq_true] at h2
          obtain ⟨p, hp, hq⟩ := h2
          exact Or.inr ⟨p, hp, startsWithB_iff.mp hq⟩
    · rintro ⟨h1, h2⟩
      rw [Bool.and_eq_true]
      refine ⟨?_, ?_⟩
      · rw [Bool.not_eq_true', List.any_eq_false]
        intro pat hmem hsb
        exact h1 pat hmem (substrB_iff.mp hsb)
      · rw [Bool.or_eq_true]
        rcases h2 with h2 | ⟨p, hp, hq⟩
        · exact Or.inl (by rw [h2]; rfl)
        · exact Or.inr (List.any_eq_true.mpr ⟨p, hp, startsWithB_iff.mpr hq⟩)

/-- C6: a successful run of the derived-field filler is idempotent —
running it again on its own output succeeds, changes nothing and counts
0 — and it never overwrites a record that already carries a non-null
target field: any such record of the input reappears in the output
verbatim. -/
theorem claim_C6 (r : FillRule) (data out : Dict JVal) (c : Nat)
    (h : fill_cache_1hr_pricing (some r) data = some (out, c)) :
    fill_cache_1hr_pricing (some r) out = some (out, 0) ∧
    (∀ k fields, (k, JVal.obj fields) ∈ data →
      (getNonNull fields costField1hr).isSome = true →
      (k, JVal.obj fields) ∈ out) :=
  fillList_idem_mem r data out c h

/-- C6 (witness): the 1.6-ratio rule fills a claude record once (count
1); `claim_C6` applied at this input gives the second run returning the
same dict with count 0. -/
theorem claim_C6_witness :
    fill_cache_1hr_pricing (some ⟨"claude-", 16, 1⟩)
      [("claude-a", JVal.obj [("cache_creation_input_token_cost",
        Scalar.num 3 1)])]
      = some ([("claude-a", JVal.obj
          [("cache_creation_input_token_cost", Scalar.num 3 1),
           ("cache_creation_input_token_cost_above_1hr", Scalar.num 48 2)])],
        1) ∧
    fill_cache_1hr_pricing (some ⟨"claude-", 16, 1⟩)
      [("claude-a", JVal.obj
        [("cache_creation_input_token_cost", Scalar.num 3 1),
         ("cache_creation_input_token_cost_above_1hr", Scalar.num 48 2)])]
      = some ([("claude-a", JVal.obj
          [("cache_creation_input_token_cost", Scalar.num 3 1),
           ("cache_creation_input_token_cost_above_1hr", Scalar.num 48 2)])],
        0) :=
  ⟨by decide,
   (claim_C6 ⟨"claude-", 16, 1⟩
     [("claude-a", JVal.obj [("cache_creation_input_token_cost",
       Scalar.num 3 1)])]
     [("claude-a", JVal.obj
       [("cache_creation_input_token_cost", Scalar.num 3 1),
        ("cache_creation_input_token_cost_above_1hr", Scalar.num 48 2)])]
     1 (by decide)).1⟩

/-- C7: when the hex SHA-256 digest of the canonical serialization
(sorted keys, 2-space indent, trailing newline) already equals the
stored hash, `write_output` returns changed=false with that digest and
writes no file at all; and writing twice with the same logical content
gives changed=false and no writes on the second call, with the same
hash both times. -/
theorem claim_C7 (data : Dict JVal) (json_path hash_path old_hash : String)
    (h : compute_hash (utf8Bytes (dumps data ++ "\n")) = old_hash) :
    write_output data json_path hash_path old_hash = ⟨false, old_hash, []⟩ ∧
    ∀ oh2, write_output data json_path hash_path
        (write_output data json_path hash_path oh2).new_hash
      = ⟨false, (write_output data json_path hash_path oh2).new_hash, []⟩ := by
  have hkey : write_output data json_path hash_path old_hash
      = ⟨false, old_hash, []⟩ := by
    simp only [write_output]
    rw [if_pos h, h]
  have hnew : ∀ oh2, (write_output data json_path hash_path oh2).new_hash
      = compute_hash (utf8Bytes (dumps data ++ "\n")) := by
    intro oh2
    simp only [write_output]
    split <;> rfl
  refine ⟨hkey, ?_⟩
  intro oh2
  rw [hnew oh2]
  simp only [write_output]
  simp

/-- C7 (witness): `claim_C7` applied to a one-record catalog whose
stored hash is exactly the digest of its canonical serialization. -/
theorem claim_C7_witness :
    write_output [("gpt-4", JVal.obj [("cost", Scalar.num 2 0)])]
        "prices.json" "prices.sha256"
        (compute_hash (utf8Bytes
          (dumps [("gpt-4", JVal.obj [("cost", Scalar.num 2 0)])] ++ "\n")))
      = ⟨false,
         compute_hash (utf8Bytes
           (dumps [("gpt-4", JVal.obj [("cost", Scalar.num 2 0)])] ++ "\n")),
         []⟩ :=
  (claim_C7 [("gpt-4", JVal.obj [("cost", Scalar.num 2 0)])]
    "prices.json" "prices.sha256" _ rfl).1

/-- C8: alias application processes the alias pairs in order; an alias
whose source key is missing leaves the whole catalog untouched (the run
continues, only a warning being logged), and an alias whose source key
is present stores the source's record at the alias key — the alias key
then reads that record, overwriting whatever was there, and every other
key reads as before. -/
theorem claim_C8 {V : Type} (data : Dict V) (a src : String)
    (rest : List (String × String)) (v : V) :
    apply_aliases data [] = data ∧
    apply_aliases data ((a, src) :: rest)
      = apply_aliases (applyAliasOne data (a, src)) rest ∧
    (dictLookup data src = none → applyAliasOne data (a, src) = data) ∧
    (dictLookup data src = some v →
      applyAliasOne data (a, src) = dictInsert data a v ∧
      dictLookup (dictInsert data a v) a = some v ∧
      ∀ k2, k2 ≠ a → dictLookup (dictInsert data a v) k2 = dictLookup data k2) := by
  refine ⟨rfl, rfl, ?_, ?_⟩
  · intro h
    unfold applyAliasOne
    rw [h]
  · intro h
    refine ⟨by unfold applyAliasOne; rw [h], ?_, ?_⟩
    · rw [dictLookup_insert, if_pos rfl]
    · intro k2 hne
      rw [dictLookup_insert, if_neg (fun e => hne e.symm)]

/-- C8 (witness): a two-alias config where the first source exists and
the second does not; `claim_C8` applied at both alias pairs. -/
theorem claim_C8_witness :
    applyAliasOne [("m", JVal.scalar (Scalar.num 1 0))] ("bad", "zz")
      = [("m", JVal.scalar (Scalar.num 1 0))] ∧
    applyAliasOne [("m", JVal.scalar (Scalar.num 1 0))] ("al", "m")
      = dictInsert [("m", JVal.scalar (Scalar.num 1 0))] "al"
          (JVal.scalar (Scalar.num 1 0)) ∧
    dictLookup (dictInsert [("m", JVal.scalar (Scalar.num 1 0))] "al"
        (JVal.scalar (Scalar.num 1 0))) "al"
      = some (JVal.scalar (Scalar.num 1 0)) :=
  ⟨(claim_C8 [("m", JVal.scalar (Scalar.num 1 0))] "bad" "zz" []
      (JVal.scalar (Scalar.num 1 0))).2.2.1 (by decide),
   ((claim_C8 [("m", JVal.scalar (Scalar.num 1 0))] "al" "m" []
      (JVal.scalar (Scalar.num 1 0))).2.2.2 (by decide)).1,
   ((claim_C8 [("m", JVal.scalar (Scalar.num 1 0))] "al" "m" []
      (JVal.scalar (Scalar.num 1 0))).2.2.2 (by decide)).2.1⟩

/-- C9: in additive mode, whatever the update flag, the three merge
counters added, updated and unchanged sum to total_upstream, which is
the number of filtered pairs — each filtered pair is counted exactly
once. -/
theorem claim_C9 {V : Type} [DecidableEq V] (existing filtered : Dict V)
    (upd : Bool) :
    ((merge_models existing filtered "additive" upd).2).added +
      ((merge_models existing filtered "additive" upd).2).updated +
      ((merge_models existing filtered "additive" upd).2).unchanged
      = ((merge_models existing filtered "additive" upd).2).total_upstream ∧
    ((merge_models existing filtered "additive" upd).2).total_upstream
      = filtered.length := by
  have hm : merge_models existing filtered "additive" upd
      = mergeAdditive upd existing ⟨0, 0, 0, filtered.length⟩ filtered := rfl
  have h := mergeAdditive_stats_sum upd filtered existing
    ⟨0, 0, 0, filtered.length⟩
  rw [hm]
  refine ⟨?_, by rw [h.2]⟩
  rw [h.2, h.1]
  simp

/-- C10: a successful run of the derived-field filler preserves the key
sequence of the catalog; records whose key does not match the rule's
model name pattern come through unchanged; a changed record only has a
non-null scalar (the converted product) stored into its previously
absent-or-null target field, every other field reading exactly as
before; and the returned count is the number of records changed. -/
theorem claim_C10 (r : FillRule) (data out : Dict JVal) (c : Nat)
    (h : fill_cache_1hr_pricing (some r) data = some (out, c)) :
    out.map Prod.fst = data.map Prod.fst ∧
    (∀ p ∈ data.zip out,
      (startsWithB r.modelPre p.1.1 = false → p.2.2 = p.1.2) ∧
      (p.2.2 = p.1.2 ∨ (startsWithB r.modelPre p.1.1 = true ∧
        ∃ fields sc2, p.1.2 = JVal.obj fields ∧
          sc2 ≠ Scalar.null ∧
          p.2.2 = JVal.obj (dictInsert fields costField1hr sc2) ∧
          getNonNull fields costField1hr = none ∧
          ∀ f2, f2 ≠ costField1hr →
            dictLookup (dictInsert fields costField1hr sc2) f2 =
              dictLookup fields f2))) ∧
    c = (data.zip out).countP (fun p => !(p.1.2 == p.2.2)) :=
  fillList_frame r data out c h

/-- C10 (witness): a catalog with one matching and one non-matching
record; the fill changes exactly the matching one, and `claim_C10`
applied at this input gives the key preservation and the count. -/
theorem claim_C10_witness :
    fill_cache_1hr_pricing (some ⟨"claude-", 16, 1⟩)
      [("claude-b", JVal.obj [("cache_creation_input_token_cost",
        Scalar.num 1 0)]),
       ("gpt-9", JVal.obj [("cache_creation_input_token_cost",
        Scalar.num 2 0)])]
      = some ([("claude-b", JVal.obj
          [("cache_creation_input_token_cost", Scalar.num 1 0),
           ("cache_creation_input_token_cost_above_1hr", Scalar.num 16 1)]),
         ("gpt-9", JVal.obj [("cache_creation_input_token_cost",
          Scalar.num 2 0)])], 1) ∧
    [("claude-b", JVal.obj
        [("cache_creation_input_token_cost", Scalar.num 1 0),
         ("cache_creation_input_token_cost_above_1hr", Scalar.num 16 1)]),
      ("gpt-9", JVal.obj [("cache_creation_input_token_cost",
       Scalar.num 2 0)])].map Prod.fst
      = [("claude-b", JVal.obj [("cache_creation_input_token_cost",
          Scalar.num 1 0)]),
         ("gpt-9", JVal.obj [("cache_creation_input_token_cost",
          Scalar.num 2 0)])].map Prod.fst :=
  ⟨by decide,
   (claim_C10 ⟨"claude-", 16, 1⟩
     [("claude-b", JVal.obj [("cache_creation_input_token_cost",
       Scalar.num 1 0)]),
      ("gpt-9", JVal.obj [("cache_creation_input_token_cost",
       Scalar.num 2 0)])]
     [("claude-b", JVal.obj
        [("cache_creation_input_token_cost", Scalar.num 1 0),
         ("cache_creation_input_token_cost_above_1hr", Scalar.num 16 1)]),
      ("gpt-9", JVal.obj [("cache_creation_input_token_cost",
       Scalar.num 2 0)])]
     1 (by decide)).1⟩
